import Mathlib

/-!
Verification development for the webdocstopdf tool (`src/webdocstopdf/main.py`).

Python strings are embedded as `List Char`; Python values that may be `None`
are embedded as `Option`; functions that may raise are embedded as `Except`.
External capabilities (the Selenium driver, the filesystem, the YAML parser,
PyPDF2) are embedded as explicit parameters or environment records, and the
straight-line orchestration of `main` is embedded as an event trace.
-/

namespace WebDocsToPdf

/-- Python strings, embedded as lists of characters. -/
abbrev Str := List Char

/-- Coerce a Lean string literal to the `Str` embedding. -/
def str (s : String) : Str := s.data

/-- `url.split("#")[0]`: the prefix of the string before the first `'#'`
(the whole string when no `'#'` occurs). -/
def stripFrag (url : Str) : Str := url.takeWhile (fun c => decide (c ≠ '#'))

theorem stripFrag_nil : stripFrag [] = [] := rfl

theorem stripFrag_cons (c : Char) (cs : Str) :
    stripFrag (c :: cs) = if c = '#' then [] else c :: stripFrag cs := by
  by_cases h : c = '#' <;> simp [stripFrag, List.takeWhile, h]

theorem stripFrag_no_hash (u : Str) : '#' ∉ stripFrag u := by
  induction u with
  | nil => simp [stripFrag_nil]
  | cons c cs ih =>
    rw [stripFrag_cons]
    by_cases h : c = '#' <;> simp [h, ih]
    intro hc
    exact h hc.symm

theorem stripFrag_idem (u : Str) : stripFrag (stripFrag u) = stripFrag u := by
  induction u with
  | nil => rfl
  | cons c cs ih =>
    rw [stripFrag_cons]
    by_cases h : c = '#'
    · simp [h, stripFrag_nil]
    · simp [h, stripFrag_cons, ih]

/-- The loop body of `remove_duplicates`: iterate over the remaining links,
carrying the set of canonical URLs already seen (`urls_set` in the source,
embedded as a list); strip the fragment from each URL, skip entries whose
canonical URL was seen, and keep the others (with the stripped URL). -/
def remove_duplicates_loop (seen : List Str) : List (Str × Str) → List (Str × Str)
  | [] => []
  | p :: rest =>
    let u := stripFrag p.2
    if u ∈ seen then remove_duplicates_loop seen rest
    else (p.1, u) :: remove_duplicates_loop (u :: seen) rest

/-- `remove_duplicates(links)` from the source: fragment-stripping
deduplication keeping the first occurrence of each canonical URL. -/
def remove_duplicates (links : List (Str × Str)) : List (Str × Str) :=
  remove_duplicates_loop [] links

/-- The per-entry canonicalization applied by `remove_duplicates`:
keep the label, strip the fragment from the URL. -/
def stripEntry (p : Str × Str) : Str × Str := (p.1, stripFrag p.2)

theorem remove_duplicates_loop_nil (seen : List Str) :
    remove_duplicates_loop seen [] = [] := rfl

theorem remove_duplicates_loop_cons (seen : List Str) (p : Str × Str)
    (rest : List (Str × Str)) :
    remove_duplicates_loop seen (p :: rest) =
      if stripFrag p.2 ∈ seen then remove_duplicates_loop seen rest
      else (p.1, stripFrag p.2) :: remove_duplicates_loop (stripFrag p.2 :: seen) rest := by
  simp [remove_duplicates_loop]

/-- Every entry produced by the loop has a canonical (fragment-stripped) URL
that was not in the seen set. -/
theorem mem_remove_duplicates_loop (l : List (Str × Str)) :
    ∀ (seen : List Str) (q : Str × Str), q ∈ remove_duplicates_loop seen l →
      q.2 ∉ seen ∧ q.2 = stripFrag q.2 := by
  induction l with
  | nil => intro seen q hq; simp [remove_duplicates_loop_nil] at hq
  | cons p rest ih =>
    intro seen q hq
    rw [remove_duplicates_loop_cons] at hq
    by_cases hs : stripFrag p.2 ∈ seen
    · rw [if_pos hs] at hq
      exact ih seen q hq
    · rw [if_neg hs] at hq
      rcases List.mem_cons.mp hq with hq | hq
      · subst hq
        exact ⟨hs, (stripFrag_idem p.2).symm⟩
      · have h := ih _ q hq
        exact ⟨fun hmem => h.1 (List.mem_cons_of_mem _ hmem), h.2⟩

/-- The URLs produced by the loop are pairwise distinct. -/
theorem remove_duplicates_loop_nodup (l : List (Str × Str)) :
    ∀ seen : List Str, ((remove_duplicates_loop seen l).map Prod.snd).Nodup := by
  induction l with
  | nil => intro seen; simp [remove_duplicates_loop_nil]
  | cons p rest ih =>
    intro seen
    rw [remove_duplicates_loop_cons]
    by_cases hs : stripFrag p.2 ∈ seen
    · rw [if_pos hs]; exact ih seen
    · rw [if_neg hs]
      simp only [List.map_cons, List.nodup_cons]
      refine ⟨?_, ih _⟩
      intro hmem
      rcases List.mem_map.mp hmem with ⟨q, hq, hq2⟩
      have h := mem_remove_duplicates_loop rest _ q hq
      exact h.1 (by rw [hq2]; exact List.mem_cons_self _ _)

/-- The loop output is a sublist of the canonicalized input, so the relative
order of kept entries is the input order. -/
theorem remove_duplicates_loop_sublist (l : List (Str × Str)) :
    ∀ seen : List Str,
      List.Sublist (remove_duplicates_loop seen l) (l.map stripEntry) := by
  induction l with
  | nil => intro seen; simp [remove_duplicates_loop_nil]
  | cons p rest ih =>
    intro seen
    rw [remove_duplicates_loop_cons]
    by_cases hs : stripFrag p.2 ∈ seen
    · rw [if_pos hs]
      exact List.Sublist.cons _ (ih seen)
    · rw [if_neg hs]
      exact List.Sublist.cons₂ _ (ih _)

/-- Each kept entry is the first canonicalized input entry bearing its URL:
everything before it in the canonicalized input has a different URL. -/
theorem remove_duplicates_loop_first (l : List (Str × Str)) :
    ∀ (seen : List Str) (q : Str × Str), q ∈ remove_duplicates_loop seen l →
      ∃ l1 l2, l.map stripEntry = l1 ++ q :: l2 ∧ ∀ r ∈ l1, r.2 ≠ q.2 := by
  induction l with
  | nil => intro seen q hq; simp [remove_duplicates_loop_nil] at hq
  | cons p rest ih =>
    intro seen q hq
    rw [remove_duplicates_loop_cons] at hq
    by_cases hs : stripFrag p.2 ∈ seen
    · rw [if_pos hs] at hq
      rcases ih seen q hq with ⟨l1, l2, heq, hne⟩
      have hqs := mem_remove_duplicates_loop rest seen q hq
      refine ⟨stripEntry p :: l1, l2, by simp [heq], ?_⟩
      intro r hr
      rcases List.mem_cons.mp hr with hr | hr
      · subst hr
        intro hcontra
        exact hqs.1 (by rw [← hcontra]; exact hs)
      · exact hne r hr
    · rw [if_neg hs] at hq
      rcases List.mem_cons.mp hq with hq | hq
      · subst hq
        exact ⟨[], rest.map stripEntry, by simp [stripEntry], by simp⟩
      · rcases ih _ q hq with ⟨l1, l2, heq, hne⟩
        have hqs := mem_remove_duplicates_loop rest _ q hq
        refine ⟨stripEntry p :: l1, l2, by simp [heq], ?_⟩
        intro r hr
        rcases List.mem_cons.mp hr with hr | hr
        · subst hr
          intro hcontra
          exact hqs.1 (by rw [← hcontra]; exact List.mem_cons_self _ _)
        · exact hne r hr

/-- Every input entry's canonical URL appears in the loop output, unless it was
already in the seen set. -/
theorem remove_duplicates_loop_complete (l : List (Str × Str)) :
    ∀ (seen : List Str) (p : Str × Str), p ∈ l →
      stripFrag p.2 ∈ (remove_duplicates_loop seen l).map Prod.snd ∨
      stripFrag p.2 ∈ seen := by
  induction l with
  | nil => intro seen p hp; simp at hp
  | cons p0 rest ih =>
    intro seen p hp
    rw [remove_duplicates_loop_cons]
    by_cases hs : stripFrag p0.2 ∈ seen
    · rw [if_pos hs]
      rcases List.mem_cons.mp hp with hp | hp
      · subst hp; exact Or.inr hs
      · exact ih seen p hp
    · rw [if_neg hs]
      rcases List.mem_cons.mp hp with hp | hp
      · subst hp; simp
      · rcases ih (stripFrag p0.2 :: seen) p hp with h | h
        · exact Or.inl (by simp [h])
        · rcases List.mem_cons.mp h with h | h
          · exact Or.inl (by simp [h])
          · exact Or.inr h

/-- If every entry already has a fragment-free URL, all URLs are pairwise
distinct, and none is in the seen set, the loop returns its input unchanged. -/
theorem remove_duplicates_loop_fixed (l : List (Str × Str)) :
    ∀ seen : List Str,
      (∀ q ∈ l, stripFrag q.2 = q.2) →
      ((l.map Prod.snd).Nodup) →
      (∀ q ∈ l, q.2 ∉ seen) →
      remove_duplicates_loop seen l = l := by
  induction l with
  | nil => intro seen _ _ _; rfl
  | cons p rest ih =>
    intro seen hfix hnd hseen
    rw [remove_duplicates_loop_cons]
    have hp : stripFrag p.2 = p.2 := hfix p (List.mem_cons_self _ _)
    have hps : stripFrag p.2 ∉ seen := by
      rw [hp]; exact hseen p (List.mem_cons_self _ _)
    rw [if_neg hps, hp]
    simp only [List.map_cons, List.nodup_cons] at hnd
    have hrest : remove_duplicates_loop (p.2 :: seen) rest = rest := by
      refine ih _ (fun q hq => hfix q (List.mem_cons_of_mem _ hq)) hnd.2 ?_
      intro q hq
      intro hmem
      rcases List.mem_cons.mp hmem with h | h
      · exact hnd.1 (by rw [← h]; exact List.mem_map_of_mem Prod.snd hq)
      · exact hseen q (List.mem_cons_of_mem _ hq) h
    rw [hrest]

/-- C1: `remove_duplicates` strips any fragment suffix from each URL, keeps
only the first entry for each fragment-stripped URL, discards later entries
with the same canonical URL, preserves the relative order of kept entries,
returns URLs already fragment-stripped, and maps the empty input to the empty
output. -/
theorem c1_remove_duplicates_correct (links : List (Str × Str)) :
    remove_duplicates ([] : List (Str × Str)) = []
    ∧ List.Sublist (remove_duplicates links) (links.map stripEntry)
    ∧ ((remove_duplicates links).map Prod.snd).Nodup
    ∧ (∀ q ∈ remove_duplicates links, '#' ∉ q.2)
    ∧ (∀ q ∈ remove_duplicates links, ∃ l1 l2,
         links.map stripEntry = l1 ++ q :: l2 ∧ ∀ r ∈ l1, r.2 ≠ q.2)
    ∧ (∀ p ∈ links, stripFrag p.2 ∈ (remove_duplicates links).map Prod.snd) := by
  refine ⟨rfl, remove_duplicates_loop_sublist links [],
    remove_duplicates_loop_nodup links [], ?_, ?_, ?_⟩
  · intro q hq
    have h := mem_remove_duplicates_loop links [] q hq
    rw [h.2]
    exact stripFrag_no_hash q.2
  · intro q hq
    exact remove_duplicates_loop_first links [] q hq
  · intro p hp
    rcases remove_duplicates_loop_complete links [] p hp with h | h
    · exact h
    · simp at h

/-- Witness for C1 at the spec's own example input. -/
theorem c1_witness :
    stripFrag (str "http://x/p#1") ∈
      (remove_duplicates [(str "A", str "http://x/p#1"),
        (str "A", str "http://x/p#2"), (str "B", str "http://x/q")]).map Prod.snd :=
  (c1_remove_duplicates_correct [(str "A", str "http://x/p#1"),
      (str "A", str "http://x/p#2"), (str "B", str "http://x/q")]).2.2.2.2.2
    (str "A", str "http://x/p#1") (by decide)

/-- C9: `remove_duplicates` is idempotent. -/
theorem c9_remove_duplicates_idempotent (links : List (Str × Str)) :
    remove_duplicates (remove_duplicates links) = remove_duplicates links := by
  unfold remove_duplicates
  refine remove_duplicates_loop_fixed _ [] ?_ (remove_duplicates_loop_nodup links []) ?_
  · intro q hq
    exact (mem_remove_duplicates_loop links [] q hq).2.symm
  · intro q _ h
    simp at h

/-- Outcome of a parsed YAML value, as discriminated by the source's
`isinstance` checks: a list of URL strings, a mapping from keys to lists of
URL strings (Python dicts are insertion-ordered, so the mapping is an ordered
association list with distinct keys), or any other shape. -/
inductive YamlData
  | ylist (items : List Str)
  | ydict (entries : List (Str × List Str))
  | other
deriving DecidableEq

/-- The two failure kinds of the link source reader: the structured input
file does not exist, or its content is not in the accepted format. -/
inductive ReadError
  | sourceNotFound
  | invalidSourceFormat
deriving DecidableEq

/-- Modelled from the spec: Python's `fnmatch.fnmatch` (library code, not in
this repository) — glob matching of a name against a pattern, with `*`
matching any run of characters, `?` matching any single character, and any
other pattern character matching itself literally. -/
def fnmatchChars : Str → Str → Bool
  | s, [] => s.isEmpty
  | s, '*' :: ps =>
    fnmatchChars s ps ||
      (match s with
       | [] => false
       | _ :: cs => fnmatchChars cs ('*' :: ps))
  | [], _ :: _ => false
  | _ :: cs, '?' :: ps => fnmatchChars cs ps
  | c :: cs, p :: ps => decide (c = p) && fnmatchChars cs ps
termination_by s p => s.length + p.length

/-- `data[key]` on the ordered association list embedding of a Python dict. -/
def dget (k : Str) : List (Str × List Str) → List Str
  | [] => []
  | e :: rest => if e.1 = k then e.2 else dget k rest

/-- `list_to_pair` from the source: pair each URL with an empty label. -/
def list_to_pair (data : List Str) : List (Str × Str) :=
  data.map (fun item => (([] : Str), item))

/-- `read_links_from_file(file_path, selector)` from the source, with the
filesystem and YAML parser embedded as parameters: `fileExists` is
`os.path.isfile(file_path)` and `parsed` is the result of `yaml.safe_load`
(`none` when loading raises). A missing file raises the source-not-found
error; an unparsable file, a value that is neither list nor dict, and a dict
with a falsy non-`None` selector raise the invalid-format error. -/
def read_links_from_file (fileExists : Bool) (parsed : Option YamlData)
    (selector : Option Str) : Except ReadError (List (Str × Str)) :=
  if fileExists then
    match parsed with
    | none => .error .invalidSourceFormat
    | some (.ylist items) => .ok (list_to_pair items)
    | some (.ydict entries) =>
      match selector with
      | none => .ok (list_to_pair ((entries.map Prod.snd).flatten))
      | some sel =>
        if sel ≠ [] then
          let matching_keys := (entries.map Prod.fst).filter (fun key => fnmatchChars key sel)
          let merged_values := matching_keys.flatMap (fun key => dget key entries)
          .ok (list_to_pair merged_values)
        else .error .invalidSourceFormat
    | some .other => .error .invalidSourceFormat
  else .error .sourceNotFound

theorem list_to_pair_append (xs ys : List Str) :
    list_to_pair (xs ++ ys) = list_to_pair xs ++ list_to_pair ys := by
  simp [list_to_pair]

theorem list_to_pair_flatMap {α : Type} (l : List α) (f : α → List Str) :
    list_to_pair (l.flatMap f) = l.flatMap (fun a => list_to_pair (f a)) := by
  induction l with
  | nil => rfl
  | cons a rest ih => simp only [List.flatMap_cons, list_to_pair_append, ih]

theorem dget_head (e : Str × List Str) (rest : List (Str × List Str)) :
    dget e.1 (e :: rest) = e.2 := by
  simp [dget]

theorem dget_tail (k : Str) (e : Str × List Str) (rest : List (Str × List Str))
    (h : e.1 ≠ k) : dget k (e :: rest) = dget k rest := by
  simp [dget, h]

theorem flatMap_congr_mem {α β : Type} (l : List α) (f g : α → List β)
    (h : ∀ a ∈ l, f a = g a) : l.flatMap f = l.flatMap g := by
  induction l with
  | nil => rfl
  | cons a rest ih =>
    simp only [List.flatMap_cons]
    rw [h a (List.mem_cons_self _ _), ih (fun b hb => h b (List.mem_cons_of_mem _ hb))]

/-- Looking up the values of the keys selected by `p` (in key order) from a
dict with distinct keys is the same as filtering the entries by `p` on their
key and concatenating their values. -/
theorem filter_flatMap_dget (p : Str → Bool) (entries : List (Str × List Str))
    (h : (entries.map Prod.fst).Nodup) :
    ((entries.map Prod.fst).filter p).flatMap (fun k => dget k entries)
      = (entries.filter (fun e => p e.1)).flatMap Prod.snd := by
  induction entries with
  | nil => rfl
  | cons e rest ih =>
    simp only [List.map_cons, List.nodup_cons] at h
    have hrest : ∀ k ∈ (rest.map Prod.fst).filter p, dget k (e :: rest) = dget k rest := by
      intro k hk
      have hk2 : k ∈ rest.map Prod.fst := List.mem_of_mem_filter hk
      exact dget_tail k e rest (fun hek => h.1 (hek ▸ hk2))
    by_cases hp : p e.1
    · rw [List.map_cons, List.filter_cons_of_pos (by simpa using hp),
        List.filter_cons_of_pos (by simpa using hp)]
      simp only [List.flatMap_cons]
      rw [dget_head, flatMap_congr_mem _ _ _ hrest, ih h.2]
    · rw [List.map_cons, List.filter_cons_of_neg (by simpa using hp),
        List.filter_cons_of_neg (by simpa using hp)]
      rw [flatMap_congr_mem _ _ _ hrest, ih h.2]

/-- C3: for a successfully parsed input file, a list value yields one entry
per element with an empty label in list order; a mapping with no selector
yields the concatenation of all values in key order, each with an empty
label; and a mapping with a (nonempty) glob selector yields only the
concatenated values of the keys matching the glob, in key order. -/
theorem c3_read_links_from_file_cases (items : List Str)
    (entries : List (Str × List Str)) (sel : Str) (selector : Option Str)
    (hnd : (entries.map Prod.fst).Nodup) (hsel : sel ≠ []) :
    read_links_from_file true (some (YamlData.ylist items)) selector
      = .ok (items.map (fun u => (([] : Str), u)))
    ∧ read_links_from_file true (some (YamlData.ydict entries)) none
      = .ok (entries.flatMap (fun e => e.2.map (fun u => (([] : Str), u))))
    ∧ read_links_from_file true (some (YamlData.ydict entries)) (some sel)
      = .ok ((entries.filter (fun e => fnmatchChars e.1 sel)).flatMap
          (fun e => e.2.map (fun u => (([] : Str), u)))) := by
  refine ⟨rfl, ?_, ?_⟩
  · have h1 : read_links_from_file true (some (YamlData.ydict entries)) none
        = .ok (list_to_pair (entries.flatMap Prod.snd)) := rfl
    rw [h1, list_to_pair_flatMap]
    simp [list_to_pair]
  · have h1 : read_links_from_file true (some (YamlData.ydict entries)) (some sel)
        = .ok (list_to_pair
            (((entries.map Prod.fst).filter (fun key => fnmatchChars key sel)).flatMap
              (fun key => dget key entries))) := by
      simp [read_links_from_file, hsel]
    rw [h1, filter_flatMap_dget _ entries hnd, list_to_pair_flatMap]
    simp [list_to_pair]

/-- Witness for C3 at the spec's own example mapping with selector `gui*`. -/
theorem c3_witness :
    read_links_from_file true
        (some (YamlData.ydict [(str "guides", [str "http://x/1", str "http://x/2"]),
          (str "api", [str "http://x/3"])]))
        (some (str "gui*"))
      = .ok (([(str "guides", [str "http://x/1", str "http://x/2"]),
            (str "api", [str "http://x/3"])].filter
              (fun e => fnmatchChars e.1 (str "gui*"))).flatMap
          (fun e => e.2.map (fun u => (([] : Str), u)))) :=
  (c3_read_links_from_file_cases []
      [(str "guides", [str "http://x/1", str "http://x/2"]),
        (str "api", [str "http://x/3"])]
      (str "gui*") none (by decide) (by decide)).2.2

/-- C10: for a mapping-shaped input file, an empty-string selector (neither
`None` nor a truthy glob) takes neither the flatten branch nor the
key-matching branch and yields the invalid-structure error, rather than all
entries or an empty list. -/
theorem c10_empty_selector_invalid (entries : List (Str × List Str)) :
    read_links_from_file true (some (YamlData.ydict entries)) (some ([] : Str))
      = .error ReadError.invalidSourceFormat := by
  simp [read_links_from_file]

/-- Outcome of one metadata query in `get_cover_pdf`:
`driver.find_element` followed by `get_attribute("content")`. `.error` means
`find_element` raised (element absent or the selector is invalid); `.ok c`
means an element was found and its `content` attribute is `c` (`none` embeds
Selenium returning Python `None` when the attribute is missing). -/
abbrev MetaResult := Except Unit (Option Str)

/-- The prioritized metadata selector list from `get_cover_pdf`. The second
entry reproduces the source literally: it lacks the closing `"]`. -/
def cover_selectors : List Str :=
  [str "meta[property=\"og:site_name\"]", str "meta[property=\"og:title"]

/-- The selector loop of `get_cover_pdf`: for each selector, query it; on an
exception continue with the next selector; otherwise assign the content
attribute to `title` and stop as soon as `title != \x22\x22` (note that a
`None` content also stops the loop, since `None != \x22\x22` in Python). -/
def guess_title_loop (q : Str → MetaResult) : List Str → Option Str → Option Str
  | [], title => title
  | s :: rest, title =>
    match q s with
    | .error _ => guess_title_loop q rest title
    | .ok content =>
      if content = some ([] : Str) then guess_title_loop q rest content
      else content

/-- The title-resolution logic of `get_cover_pdf`: when the caller-supplied
title is empty, run the metadata selector loop; afterwards replace an empty
(but not `None`) title by the hardcoded default `"Documentation"`. The result
is the Python value interpolated into the cover HTML. -/
def get_cover_title (q : Str → MetaResult) (title : Str) : Option Str :=
  let t : Option Str :=
    if title = [] then guess_title_loop q cover_selectors (some title) else some title
  if t = some ([] : Str) then some (str "Documentation") else t

/-- Python string interpolation of a value that is either a string or `None`:
`f"{x}"` renders `None` as the four characters `None`. -/
def pyStr : Option Str → Str
  | none => str "None"
  | some s => s

/-- `generate_cover_page(title)` from the source, with the current date passed
in (the source reads the wall clock): the cover HTML with the title and date
interpolated. -/
def generate_cover_page (title : Option Str) (current_date : Str) : Str :=
  str "<html><head><meta charset=\"utf-8\"><title>Cover</title></head>"
    ++ str "<body style=\"text-align:center; margin-top:200px;\"><h1>"
    ++ pyStr title
    ++ str "</h1><p>Documentation PDF</p><p>Date: "
    ++ current_date
    ++ str "</p></body></html>"

/-- Modelled from the spec: the claim's own title resolution, for comparison
with `get_cover_title` — try the prioritized selectors and let the first
non-empty content attribute win; fall back to the caller-supplied default
title and then to the hardcoded default when no metadata is found or the
query raises. -/
def spec_detect_title (q : Str → MetaResult) : List Str → Option Str
  | [] => none
  | s :: rest =>
    match q s with
    | .ok (some c) => if c ≠ [] then some c else spec_detect_title q rest
    | _ => spec_detect_title q rest

/-- Modelled from the spec: full claimed resolution including the fallbacks
(the caller-supplied title participates only when it is non-empty, per the
CLI contract that an empty `--title` requests auto-detection). -/
def spec_cover_title (q : Str → MetaResult) (title : Str) : Str :=
  if title = [] then
    match spec_detect_title q cover_selectors with
    | some c => c
    | none => str "Documentation"
  else title

/-- A concrete metadata environment: the first selector finds a `meta`
element whose `content` attribute is missing (Selenium returns `None`), and
the second selector raises (as the typo'd selector in the source always
does). -/
def q_c7 : Str → MetaResult := fun s =>
  if s = str "meta[property=\"og:site_name\"]" then Except.ok none
  else Except.error ()

/-- Counterexample for C7: with a present metadata element whose `content`
attribute is `None`, the loop stops with `title = None` (because
`None != \x22\x22` in Python), no fallback fires, and the cover embeds the
string `None` — not the claimed resolution, which would fall back to the
hardcoded default title. -/
theorem c7_counterexample :
    get_cover_title q_c7 (str "") = none
    ∧ pyStr (get_cover_title q_c7 (str "")) ≠ spec_cover_title q_c7 (str "")
    ∧ spec_cover_title q_c7 (str "") = str "Documentation" := by
  refine ⟨by decide, by decide, by decide⟩

theorem spec_detect_title_ne_nil (q : Str → MetaResult) (ss : List Str) (c : Str)
    (h : spec_detect_title q ss = some c) : c ≠ [] := by
  induction ss with
  | nil => simp [spec_detect_title] at h
  | cons s rest ih =>
    rw [spec_detect_title] at h
    cases hq : q s with
    | error e =>
      rw [hq] at h
      exact ih h
    | ok content =>
      rw [hq] at h
      cases content with
      | none => exact ih h
      | some c0 =>
        by_cases hc : c0 = []
        · simp only [ne_eq, hc, not_true_eq_false, if_false] at h
          exact ih h
        · simp only [ne_eq, hc, not_false_eq_true, if_true] at h
          cases h
          exact hc

theorem guess_title_loop_eq_spec (q : Str → MetaResult) (ss : List Str)
    (h : ∀ s ∈ ss, q s ≠ .ok none) :
    guess_title_loop q ss (some []) =
      match spec_detect_title q ss with
      | some c => some c
      | none => some [] := by
  induction ss with
  | nil => rfl
  | cons s rest ih =>
    have hs : q s ≠ .ok none := h s (List.mem_cons_self _ _)
    have hrest := ih (fun s2 hs2 => h s2 (List.mem_cons_of_mem _ hs2))
    rw [guess_title_loop, spec_detect_title]
    cases hq : q s with
    | error e => exact hrest
    | ok content =>
      cases content with
      | none => exact absurd hq hs
      | some c0 =>
        by_cases hc : c0 = []
        · subst hc
          simp only [if_pos rfl, ne_eq, not_true_eq_false, if_false]
          exact hrest
        · simp only [if_neg (show ¬ some c0 = some ([] : Str) by simpa using hc),
            ne_eq, hc, not_false_eq_true, if_true]

/-- C7 amended: when no selector query yields a `None` content attribute,
`get_cover_pdf` resolves the title exactly as the claim states (first
non-empty content attribute wins, then the caller-supplied title when
non-empty, then the hardcoded default), query failures are recovered locally,
and the title embedded in the cover HTML is non-empty. A found element whose
`content` attribute is `None` instead wins the loop and is embedded as the
string `None`. -/
theorem c7_cover_title_amended (q : Str → MetaResult) (title : Str)
    (h : ∀ s ∈ cover_selectors, q s ≠ .ok none) :
    get_cover_title q title = some (spec_cover_title q title)
    ∧ spec_cover_title q title ≠ []
    ∧ pyStr (get_cover_title q title) ≠ [] := by
  have hmain : get_cover_title q title = some (spec_cover_title q title) := by
    unfold get_cover_title spec_cover_title
    by_cases ht : title = []
    · subst ht
      rw [if_pos rfl, if_pos rfl, guess_title_loop_eq_spec q cover_selectors h]
      match hd : spec_detect_title q cover_selectors with
      | some c =>
        have hc := spec_detect_title_ne_nil q cover_selectors c hd
        rw [if_neg (by simpa using hc)]
      | none => simp
    · rw [if_neg ht, if_neg ht, if_neg (by simpa using ht)]
  refine ⟨hmain, ?_, ?_⟩
  · unfold spec_cover_title
    by_cases ht : title = []
    · rw [if_pos ht]
      match hd : spec_detect_title q cover_selectors with
      | some c => exact spec_detect_title_ne_nil q cover_selectors c hd
      | none => simp [str]
    · rw [if_neg ht]; exact ht
  · rw [hmain]
    simp only [pyStr]
    unfold spec_cover_title
    by_cases ht : title = []
    · rw [if_pos ht]
      match hd : spec_detect_title q cover_selectors with
      | some c => exact spec_detect_title_ne_nil q cover_selectors c hd
      | none => simp [str]
    · rw [if_neg ht]; exact ht

/-- A metadata environment for the C7 witness in which every query raises. -/
def q_c7w : Str → MetaResult := fun _ => Except.error ()

/-- Witness for C7 amended: when every metadata query raises, the failure is
recovered and the hardcoded default title is used. -/
theorem c7_witness :
    get_cover_title q_c7w (str "") = some (spec_cover_title q_c7w (str ""))
    ∧ spec_cover_title q_c7w (str "") ≠ []
    ∧ pyStr (get_cover_title q_c7w (str "")) ≠ [] :=
  c7_cover_title_amended q_c7w (str "") (by intro s hs; simp [q_c7w])

/-- A candidate link element on the live page: its `text` attribute and its
`href` attribute (each `none` when Selenium returns Python `None`). -/
structure LinkElem where
  text : Option Str
  href : Option Str
deriving DecidableEq

/-- The prioritized structural selector list from `read_links_from_web`. -/
def web_selectors : List Str :=
  [str ".sidebar-primary-item nav a", str ".side-nav-section a", str "nav a"]

/-- The selector-probing loop of `read_links_from_web`: try each selector in
order and keep the elements of the first selector that yields any. -/
def probe_selectors (find_elements : Str → List LinkElem) : List Str → List LinkElem
  | [] => []
  | s :: rest =>
    let links_detected := find_elements s
    if links_detected ≠ [] then links_detected else probe_selectors find_elements rest

/-- The extraction loop of `read_links_from_web`: for each candidate element,
take `text = get_attribute("text") or \x22\x22` and `href`, and keep
`(text, href)` when `href` is truthy, `text` is non-empty, and the host of
`href` equals `base`. `netloc` embeds `urllib.parse.urlparse(u).netloc`. -/
def filter_links (netloc : Str → Str) (base : Str) : List LinkElem → List (Str × Str)
  | [] => []
  | l :: rest =>
    let text := l.text.getD []
    match l.href with
    | none => filter_links netloc base rest
    | some href =>
      if href ≠ [] ∧ text ≠ [] ∧ netloc href = base then
        (text, href) :: filter_links netloc base rest
      else filter_links netloc base rest

/-- `read_links_from_web(driver, input_path, selector)` from the source, with
the browser embedded as the `find_elements` capability and URL host
extraction as `netloc`: probe the selectors, then filter the found elements
against the host of the input locator. -/
def read_links_from_web (find_elements : Str → List LinkElem)
    (netloc : Str → Str) (input_path : Str) : List (Str × Str) :=
  filter_links netloc (netloc input_path) (probe_selectors find_elements web_selectors)

theorem filter_links_cons_none (netloc : Str → Str) (base : Str) (e : LinkElem)
    (rest : List LinkElem) (he : e.href = none) :
    filter_links netloc base (e :: rest) = filter_links netloc base rest := by
  rw [filter_links, he]

theorem filter_links_cons_some (netloc : Str → Str) (base : Str) (e : LinkElem)
    (rest : List LinkElem) (href : Str) (he : e.href = some href) :
    filter_links netloc base (e :: rest) =
      if href ≠ [] ∧ e.text.getD [] ≠ [] ∧ netloc href = base then
        (e.text.getD [], href) :: filter_links netloc base rest
      else filter_links netloc base rest := by
  rw [filter_links, he]

theorem mem_filter_links (netloc : Str → Str) (base : Str) (t h : Str)
    (l : List LinkElem) :
    (t, h) ∈ filter_links netloc base l ↔
      ∃ e ∈ l, e.href = some h ∧ e.text.getD [] = t ∧ h ≠ [] ∧ t ≠ []
        ∧ netloc h = base := by
  induction l with
  | nil => simp [filter_links]
  | cons e rest ih =>
    cases he : e.href with
    | none =>
      rw [filter_links_cons_none netloc base e rest he]
      simp only [List.mem_cons]
      rw [ih]
      constructor
      · rintro ⟨e2, he2, hp⟩
        exact ⟨e2, Or.inr he2, hp⟩
      · rintro ⟨e2, he2 | he2, hp⟩
        · subst he2
          rw [he] at hp
          exact absurd hp.1 (by simp)
        · exact ⟨e2, he2, hp⟩
    | some href =>
      rw [filter_links_cons_some netloc base e rest href he]
      by_cases hc : href ≠ [] ∧ e.text.getD [] ≠ [] ∧ netloc href = base
      · rw [if_pos hc]
        simp only [List.mem_cons]
        constructor
        · rintro (hp | hp)
          · obtain ⟨ht, hh⟩ := Prod.mk.injEq .. ▸ hp
            subst ht
            subst hh
            exact ⟨e, Or.inl rfl, he, rfl, hc.1, hc.2.1, hc.2.2⟩
          · rcases ih.mp hp with ⟨e2, he2, hprops⟩
            exact ⟨e2, Or.inr he2, hprops⟩
        · rintro ⟨e2, he2 | he2, hprops⟩
          · subst he2
            rw [he] at hprops
            rcases hprops with ⟨hh, ht, _, _, _⟩
            cases hh
            rw [ht]
            exact Or.inl rfl
          · exact Or.inr (ih.mpr ⟨e2, he2, hprops⟩)
      · rw [if_neg hc]
        rw [ih]
        constructor
        · rintro ⟨e2, he2, hp⟩
          exact ⟨e2, List.mem_cons_of_mem _ he2, hp⟩
        · rintro ⟨e2, he2, hp⟩
          rcases List.mem_cons.mp he2 with he2 | he2
          · subst he2
            rw [he] at hp
            rcases hp with ⟨hh, ht, hh1, ht1, hn⟩
            cases hh
            rw [ht] at hc
            exact absurd ⟨hh1, ht1, hn⟩ hc
          · exact ⟨e2, he2, hp⟩

/-- C8: every entry returned by `read_links_from_web` has a non-empty
destination URL, non-empty visible text, and a host equal to the host of the
input locator (so every off-site candidate is excluded); conversely exactly
the candidates found on the page that satisfy these conditions are returned. -/
theorem c8_web_link_filtering (find_elements : Str → List LinkElem)
    (netloc : Str → Str) (input_path : Str) (t h : Str) :
    (t, h) ∈ read_links_from_web find_elements netloc input_path ↔
      ∃ e ∈ probe_selectors find_elements web_selectors,
        e.href = some h ∧ e.text.getD [] = t ∧ h ≠ [] ∧ t ≠ []
          ∧ netloc h = netloc input_path :=
  mem_filter_links netloc (netloc input_path) t h
    (probe_selectors find_elements web_selectors)

/-- A concrete page for the C8 witness: the first selector finds one on-site
link. -/
def find_elements_c8 : Str → List LinkElem :=
  fun _ => [⟨some (str "A"), some (str "u/p")⟩]

/-- A concrete host extractor for the C8 witness: the prefix before the first
slash. -/
def netloc_c8 : Str → Str := fun s => s.takeWhile (fun c => decide (c ≠ '/'))

/-- Witness for C8: the on-site candidate with non-empty text and URL is
returned. -/
theorem c8_witness :
    (str "A", str "u/p") ∈ read_links_from_web find_elements_c8 netloc_c8 (str "u") :=
  (c8_web_link_filtering find_elements_c8 netloc_c8 (str "u") (str "A") (str "u/p")).mpr
    ⟨⟨some (str "A"), some (str "u/p")⟩, by decide, by decide, by decide, by decide,
      by decide, by decide⟩

/-- A rendered PDF document, embedded as its sequence of pages (pages are
opaque and concatenation is the only operation PyPDF2's `PdfMerger` performs
on them). -/
abbrev Pdf := List Nat

/-- `generate_index_page(urls)` from the source: the index HTML built by
appending one `<li>` per entry to the header and then the footer. -/
def generate_index_page (urls : List (Str × Str)) : Str :=
  (urls.foldl
    (fun index_html u =>
      index_html ++ str "<li>" ++ u.1 ++ str " - " ++ u.2 ++ str "</li>")
    (str "<html><head><meta charset=\"utf-8\"><title>Index</title></head><body><h2>Table of contents</h2><ul>"))
    ++ str "</ul></body></html>"

/-- `get_index_pdf(driver, page_urls, print_options)` from the source, with
the render-HTML-to-PDF capability of the browser passed in. -/
def get_index_pdf (render_html : Str → Pdf) (page_urls : List (Str × Str)) : Pdf :=
  render_html (generate_index_page page_urls)

/-- `get_cover_pdf(driver, print_options, title)` from the source: resolve
the title (`get_cover_title`), generate the cover HTML and render it. -/
def get_cover_pdf (render_html : Str → Pdf) (q : Str → MetaResult)
    (title : Str) (current_date : Str) : Pdf :=
  render_html (generate_cover_page (get_cover_title q title) current_date)

/-- The rendering loop of `get_pages_as_pdf`: navigate to each URL in order
and append the printed PDF to the accumulator. -/
def get_pages_as_pdf_loop (render_url : Str → Pdf) :
    List (Str × Str) → List Pdf → List Pdf
  | [], pages => pages
  | p :: rest, pages => get_pages_as_pdf_loop render_url rest (pages ++ [render_url p.2])

/-- `get_pages_as_pdf(driver, page_urls, print_options)` from the source:
the slice `page_urls[:]` (a full copy, embedded as `List.drop 0` — no cap)
followed by the rendering loop starting from the empty page list. -/
def get_pages_as_pdf (render_url : Str → Pdf) (page_urls : List (Str × Str)) : List Pdf :=
  get_pages_as_pdf_loop render_url (page_urls.drop 0) []

theorem get_pages_as_pdf_loop_eq (render_url : Str → Pdf) (l : List (Str × Str)) :
    ∀ pages : List Pdf,
      get_pages_as_pdf_loop render_url l pages = pages ++ l.map (fun p => render_url p.2) := by
  induction l with
  | nil => intro pages; simp [get_pages_as_pdf_loop]
  | cons p rest ih =>
    intro pages
    rw [get_pages_as_pdf_loop, ih]
    simp

theorem get_pages_as_pdf_eq_map (render_url : Str → Pdf) (page_urls : List (Str × Str)) :
    get_pages_as_pdf render_url page_urls = page_urls.map (fun p => render_url p.2) := by
  rw [get_pages_as_pdf, List.drop_zero, get_pages_as_pdf_loop_eq]
  simp

/-- The in-memory document assembled by the `merger.append` loop of
`merge_pdfs_to`: the pages of every input buffer, concatenated in input
order. -/
def merge_pdfs_content (pdf_pages : List Pdf) : List Nat :=
  pdf_pages.foldl (fun acc pdf_data => acc ++ pdf_data) []

theorem merge_pdfs_content_foldl (l : List Pdf) :
    ∀ acc : List Nat, l.foldl (fun a b => a ++ b) acc = acc ++ l.flatten := by
  induction l with
  | nil => intro acc; simp
  | cons b rest ih =>
    intro acc
    rw [List.foldl_cons, ih]
    simp

theorem merge_pdfs_content_eq_flatten (pdf_pages : List Pdf) :
    merge_pdfs_content pdf_pages = pdf_pages.flatten := by
  rw [merge_pdfs_content, merge_pdfs_content_foldl]
  simp

/-- `merge_pdfs_to(pdf_pages, output_path)` run against an embedded
filesystem, returning the final content at the output path and a success
flag. `pre` is the pre-existing content at the output path. The steps follow
the source in order: (1) the `merger.append` loop, which runs fully in
memory — `appendFail = some i` with `i` in range embeds `PdfMerger.append`
raising on the `i`-th buffer, before any filesystem access; (2)
`os.remove(output_path)` when the file exists, then `open(output_path, "wb")`
which truncates — `openFail` embeds the open itself raising after the
removal; (3) `merger.write(out_file)`, which streams pages to the already
open file — `writeStop = some k` with `k` short of the merged length embeds
the write raising after `k` pages have reached the file. -/
def merge_pdfs_to (pdf_pages : List Pdf) (pre : Option (List Nat))
    (appendFail : Option Nat) (openFail : Bool) (writeStop : Option Nat) :
    Option (List Nat) × Bool :=
  let appendRaised : Bool :=
    match appendFail with
    | some i => decide (i < pdf_pages.length)
    | none => false
  if appendRaised then (pre, false)
  else if openFail then (none, false)
  else
    let merged := merge_pdfs_content pdf_pages
    match writeStop with
    | some k => if k < merged.length then (some (merged.take k), false) else (some merged, true)
    | none => (some merged, true)

/-- A successful merge writes the flattened buffers, for any pre-existing
file. -/
theorem merge_pdfs_to_success (pdf_pages : List Pdf) (pre : Option (List Nat)) :
    merge_pdfs_to pdf_pages pre none false none = (some pdf_pages.flatten, true) := by
  simp [merge_pdfs_to, merge_pdfs_content_eq_flatten]

/-- Counterexample for C4: with a pre-existing file at the output path and a
write that fails after one page, the merge fails, the pre-existing content is
gone, and a half-written (strictly partial) output file is left behind. -/
theorem c4_counterexample :
    (merge_pdfs_to [[1, 2]] (some [9]) none false (some 1)).2 = false
    ∧ (merge_pdfs_to [[1, 2]] (some [9]) none false (some 1)).1 = some [1]
    ∧ (merge_pdfs_to [[1, 2]] (some [9]) none false (some 1)).1 ≠ some [9]
    ∧ (merge_pdfs_to [[1, 2]] (some [9]) none false (some 1)).1
        ≠ some (merge_pdfs_content [[1, 2]]) := by
  refine ⟨by decide, by decide, by decide, by decide⟩

/-- C4 amended: `merge_pdfs_to` assembles all buffers in memory before
touching the output path, so a failure while appending buffers leaves the
path (including any pre-existing file) untouched, and a fully successful run
replaces the path with the complete concatenation; however the pre-existing
file is removed and the merged bytes are written directly to the final path,
so a failure while opening loses the pre-existing file and a failure during
the write leaves a truncated output file. -/
theorem c4_merge_amended (pdf_pages : List Pdf) (pre : Option (List Nat))
    (openFail : Bool) (writeStop : Option Nat) (i k : Nat) :
    (i < pdf_pages.length →
      merge_pdfs_to pdf_pages pre (some i) openFail writeStop = (pre, false))
    ∧ merge_pdfs_to pdf_pages pre none false none
        = (some pdf_pages.flatten, true)
    ∧ (k < pdf_pages.flatten.length →
      merge_pdfs_to pdf_pages pre none false (some k)
        = (some (pdf_pages.flatten.take k), false))
    ∧ merge_pdfs_to pdf_pages pre none true writeStop = (none, false) := by
  refine ⟨?_, ?_, ?_, ?_⟩
  · intro hi
    simp [merge_pdfs_to, hi]
  · simp [merge_pdfs_to, merge_pdfs_content_eq_flatten]
  · intro hk
    rw [← merge_pdfs_content_eq_flatten] at hk ⊢
    simp [merge_pdfs_to, hk]
  · simp [merge_pdfs_to]

/-- Witness for C4 amended: an append failure on the first buffer leaves the
pre-existing file untouched. -/
theorem c4_witness :
    merge_pdfs_to [[1], [2]] (some [9]) (some 0) false none = (some [9], false) :=
  (c4_merge_amended [[1], [2]] (some [9]) false none 0 0).1 (by decide)

/-- The list of PDF buffers assembled by `main` before merging: the cover,
then the index, then (via `extend`) the per-page buffers. -/
def main_pdf_pages (render_html render_url : Str → Pdf) (q : Str → MetaResult)
    (title current_date : Str) (page_urls : List (Str × Str)) : List Pdf :=
  [get_cover_pdf render_html q title current_date,
    get_index_pdf render_html page_urls]
    ++ get_pages_as_pdf render_url page_urls

/-- C2: `main` assembles cover first, index second, then exactly one
rendered buffer per link entry in link-set order with no cap on the number
of entries, and `merge_pdfs_to` concatenates those buffers into the output
file in exactly that order. -/
theorem c2_merge_order_and_completeness (render_html render_url : Str → Pdf)
    (q : Str → MetaResult) (title current_date : Str)
    (page_urls : List (Str × Str)) (pre : Option (List Nat)) :
    main_pdf_pages render_html render_url q title current_date page_urls
      = get_cover_pdf render_html q title current_date
          :: get_index_pdf render_html page_urls
          :: page_urls.map (fun p => render_url p.2)
    ∧ (main_pdf_pages render_html render_url q title current_date page_urls).length
        = page_urls.length + 2
    ∧ merge_pdfs_to
        (main_pdf_pages render_html render_url q title current_date page_urls)
        pre none false none
      = (some (get_cover_pdf render_html q title current_date
          ++ get_index_pdf render_html page_urls
          ++ (page_urls.map (fun p => render_url p.2)).flatten), true) := by
  have h1 : main_pdf_pages render_html render_url q title current_date page_urls
      = get_cover_pdf render_html q title current_date
          :: get_index_pdf render_html page_urls
          :: page_urls.map (fun p => render_url p.2) := by
    rw [main_pdf_pages, get_pages_as_pdf_eq_map]
    rfl
  refine ⟨h1, ?_, ?_⟩
  · rw [h1]
    simp only [List.length_cons, List.length_map]
  · rw [h1]
    have h2 := (merge_pdfs_to_success (get_cover_pdf render_html q title current_date
          :: get_index_pdf render_html page_urls
          :: page_urls.map (fun p => render_url p.2)) pre)
    rw [h2]
    simp [List.append_assoc]

/-- The error kinds that can abort a run of `main`. -/
inductive MainError
  | unsupportedBrowser
  | source (e : ReadError)
  | renderFault
  | writeError
deriving DecidableEq

/-- Externally visible events of one run of `main`, in order: the browser
session is acquired (`setup_driver` returns), the link set is resolved, the
cover, index and pages are rendered, the session is released
(`driver.quit()`), the merged file is written, or an unhandled exception
aborts the run. -/
inductive Ev
  | setupDriver
  | linksRead (n : Nat)
  | renderCover
  | renderIndex
  | renderPage (i : Nat)
  | driverQuit
  | mergeWrite
  | abort (e : MainError)
deriving DecidableEq

/-- The environment of one run of `main`: the CLI arguments and the outcomes
of every external interaction. `pageFail = some k` embeds the browser
raising (navigation or print fault) while rendering the `k`-th page;
`coverOk`/`indexOk`/`mergeOk` embed the corresponding steps succeeding. -/
structure MainEnv where
  browser : Str
  input : Str
  selector : Option Str
  fileExists : Bool
  parsed : Option YamlData
  find_elements : Str → List LinkElem
  netloc : Str → Str
  coverOk : Bool
  indexOk : Bool
  pageFail : Option Nat
  mergeOk : Bool

/-- `input_path.lower().endswith((".yaml", ".yml"))` from
`get_doc_page_urls`. -/
def ends_with_yaml (input : Str) : Bool :=
  let lower := input.map Char.toLower
  (str ".yaml").isSuffixOf lower || (str ".yml").isSuffixOf lower

/-- `get_doc_page_urls(driver, input_path, selector)` from the source:
choose the file or the web reader by the input extension, then deduplicate. -/
def get_doc_page_urls (env : MainEnv) : Except ReadError (List (Str × Str)) :=
  if ends_with_yaml env.input then
    match read_links_from_file env.fileExists env.parsed env.selector with
    | .error e => .error e
    | .ok links => .ok (remove_duplicates links)
  else
    .ok (remove_duplicates (read_links_from_web env.find_elements env.netloc env.input))

/-- Events of the page-rendering loop of `get_pages_as_pdf` over `n` pages
starting at index `i`: renders each page in order until the embedded
browser fault (if any) aborts the loop. -/
def render_pages_events : Nat → Nat → Option Nat → List Ev
  | 0, _, _ => []
  | n + 1, i, pf =>
    if pf = some i then [Ev.abort MainError.renderFault]
    else Ev.renderPage i :: render_pages_events n (i + 1) pf

/-- Whether the page-rendering loop over `n` pages hits the embedded fault. -/
def page_render_fails (n : Nat) : Option Nat → Bool
  | none => false
  | some k => decide (k < n)

/-- Events from the page-rendering loop onwards: on success `driver.quit()`
is reached and then the merge runs; on a rendering fault the exception
propagates out of `main`, so neither `driver.quit()` nor the merge is
reached. -/
def render_phase_trace (n : Nat) (pageFail : Option Nat) (mergeOk : Bool) : List Ev :=
  render_pages_events n 0 pageFail ++
    (if page_render_fails n pageFail then []
     else Ev.driverQuit ::
       (if mergeOk then [Ev.mergeWrite] else [Ev.abort MainError.writeError]))

/-- The events of `main` after `setup_driver` returned: resolve the link
set (a failure there propagates, with the session already acquired), then
render cover, index and pages, quit the driver, and merge. -/
def main_trace_after_setup (env : MainEnv) : List Ev :=
  match get_doc_page_urls env with
  | .error e => [Ev.abort (MainError.source e)]
  | .ok page_urls =>
    Ev.linksRead page_urls.length ::
      (if env.coverOk then
        Ev.renderCover ::
          (if env.indexOk then
            Ev.renderIndex ::
              render_phase_trace page_urls.length env.pageFail env.mergeOk
          else [Ev.abort MainError.renderFault])
      else [Ev.abort MainError.renderFault])

/-- The event trace of one run of `main`: `setup_driver` (which raises on an
unsupported browser identity before a session exists) runs first, before the
link source is read; then the sequence of `main_trace_after_setup`. -/
def main_trace (env : MainEnv) : List Ev :=
  if env.browser = str "edge" ∨ env.browser = str "chrome" then
    Ev.setupDriver :: main_trace_after_setup env
  else [Ev.abort MainError.unsupportedBrowser]

theorem driverQuit_not_mem_render_pages_events (n : Nat) :
    ∀ (i : Nat) (pf : Option Nat), Ev.driverQuit ∉ render_pages_events n i pf := by
  induction n with
  | zero => intro i pf; simp [render_pages_events]
  | succ n ih =>
    intro i pf
    rw [render_pages_events]
    by_cases hp : pf = some i
    · simp [hp]
    · simp only [if_neg hp, List.mem_cons]
      rintro (h | h)
      · cases h
      · exact ih (i + 1) pf h

theorem abort_mem_render_pages_events (n : Nat) :
    ∀ (i k : Nat), i ≤ k → k < i + n →
      Ev.abort MainError.renderFault ∈ render_pages_events n i (some k) := by
  induction n with
  | zero => intro i k h1 h2; omega
  | succ n ih =>
    intro i k h1 h2
    rw [render_pages_events]
    by_cases hk : k = i
    · simp [hk]
    · rw [if_neg (by simp [hk])]
      exact List.mem_cons_of_mem _ (ih (i + 1) k (by omega) (by omega))

/-- The environment of the C6 counterexample: a YAML input file that does
not exist, with a supported browser. -/
def env_c6 : MainEnv :=
  { browser := str "chrome", input := str "l.yaml", selector := none,
    fileExists := false, parsed := none,
    find_elements := fun _ => [], netloc := fun s => s,
    coverOk := true, indexOk := true, pageFail := none, mergeOk := true }

/-- Counterexample for C6: with a missing structured input file the run does
fail with the source-not-found error, but the browser session has already
been acquired when the failure occurs — `setup_driver` runs before the
input file is read, so the browser is launched even though the structured
input is invalid. -/
theorem c6_counterexample :
    get_doc_page_urls env_c6 = .error ReadError.sourceNotFound
    ∧ Ev.setupDriver ∈ main_trace env_c6
    ∧ Ev.abort (MainError.source ReadError.sourceNotFound) ∈ main_trace env_c6 := by
  refine ⟨rfl, by decide, by decide⟩

/-- C6 amended: for every run whose input locator is a structured data file
that is missing or malformed, the run fails with the corresponding source
error, and this failure is reported after the browser session is acquired —
the browser is always launched before the structured input is read. -/
theorem c6_error_after_acquisition (env : MainEnv) (e : ReadError)
    (hb : env.browser = str "edge" ∨ env.browser = str "chrome")
    (hy : ends_with_yaml env.input = true)
    (hr : read_links_from_file env.fileExists env.parsed env.selector = .error e) :
    main_trace env = [Ev.setupDriver, Ev.abort (MainError.source e)] := by
  rw [main_trace, if_pos hb, main_trace_after_setup]
  rw [get_doc_page_urls, if_pos hy, hr]

/-- Witness for C6 amended, at the C6 counterexample environment. -/
theorem c6_witness :
    main_trace env_c6 = [Ev.setupDriver, Ev.abort (MainError.source ReadError.sourceNotFound)] :=
  c6_error_after_acquisition env_c6 ReadError.sourceNotFound (Or.inr rfl)
    (by decide) rfl

/-- The environment of the C5 counterexample: a web input with one link
found, where rendering the first (and only) page raises. -/
def env_c5a : MainEnv :=
  { browser := str "chrome", input := str "u", selector := none,
    fileExists := false, parsed := none,
    find_elements := fun _ => [⟨some (str "A"), some (str "u/p")⟩],
    netloc := fun s => s.takeWhile (fun c => decide (c ≠ '/')),
    coverOk := true, indexOk := true, pageFail := some 0, mergeOk := true }

/-- Counterexample for C5: the browser session is acquired and a fatal
failure occurs while rendering a page, yet `driver.quit()` is never reached
— the exception propagates out of `main`, which has no `try`/`finally`, so
the session is not released on this exit path. -/
theorem c5_counterexample :
    Ev.setupDriver ∈ main_trace env_c5a
    ∧ Ev.abort MainError.renderFault ∈ main_trace env_c5a
    ∧ Ev.driverQuit ∉ main_trace env_c5a := by
  refine ⟨by decide, by decide, by decide⟩

/-- C5 amended: the session is released exactly on the successful-rendering
path — when the cover, the index and every page render without fault,
`driver.quit()` runs (even if the later merge fails); but when a fatal
failure occurs while rendering a page, the run aborts without releasing the
session. -/
theorem c5_release_amended (env : MainEnv) (page_urls : List (Str × Str))
    (hb : env.browser = str "edge" ∨ env.browser = str "chrome")
    (hl : get_doc_page_urls env = .ok page_urls)
    (hc : env.coverOk = true) (hi : env.indexOk = true) :
    (page_render_fails page_urls.length env.pageFail = false →
      Ev.driverQuit ∈ main_trace env)
    ∧ (page_render_fails page_urls.length env.pageFail = true →
      Ev.driverQuit ∉ main_trace env
      ∧ Ev.abort MainError.renderFault ∈ main_trace env) := by
  have htrace : main_trace env =
      Ev.setupDriver :: Ev.linksRead page_urls.length :: Ev.renderCover ::
        Ev.renderIndex ::
          render_phase_trace page_urls.length env.pageFail env.mergeOk := by
    rw [main_trace, if_pos hb, main_trace_after_setup, hl, hc, hi]
    simp
  constructor
  · intro hok
    rw [htrace, render_phase_trace, hok]
    simp
  · intro hfail
    obtain ⟨k, hk⟩ : ∃ k, env.pageFail = some k := by
      cases hpf : env.pageFail with
      | none => rw [hpf] at hfail; simp [page_render_fails] at hfail
      | some k => exact ⟨k, rfl⟩
    have hklt : k < page_urls.length := by
      rw [hk] at hfail
      simpa [page_render_fails] using hfail
    constructor
    · rw [htrace]
      intro hmem
      simp only [List.mem_cons] at hmem
      rcases hmem with h | h | h | h | h
      · cases h
      · cases h
      · cases h
      · cases h
      · rw [render_phase_trace, hfail] at h
        simp at h
        exact driverQuit_not_mem_render_pages_events page_urls.length 0 env.pageFail h
    · rw [htrace, render_phase_trace]
      have hmem := abort_mem_render_pages_events page_urls.length 0 k
        (Nat.zero_le k) (by omega)
      rw [← hk] at hmem
      simp only [List.mem_cons, List.mem_append]
      exact Or.inr (Or.inr (Or.inr (Or.inr (Or.inl hmem))))

/-- The environment of the C5 witness: same single-link web run, but every
page renders successfully. -/
def env_c5b : MainEnv :=
  { browser := str "chrome", input := str "u", selector := none,
    fileExists := false, parsed := none,
    find_elements := fun _ => [⟨some (str "A"), some (str "u/p")⟩],
    netloc := fun s => s.takeWhile (fun c => decide (c ≠ '/')),
    coverOk := true, indexOk := true, pageFail := none, mergeOk := true }

/-- Witness for C5 amended: on the successful-rendering path the session is
released. -/
theorem c5_witness : Ev.driverQuit ∈ main_trace env_c5b :=
  (c5_release_amended env_c5b [(str "A", str "u/p")] (Or.inr rfl) rfl
    rfl rfl).1 (by decide)

end WebDocsToPdf
